import Mathlib

/-!
Verification of the looper-go bundled output parsers
(`claude_parser.py`, `codex_parser.py`, `opencode_parser.py`).

The Python sources are shallowly embedded: JSON values become the inductive
type `JVal`, `json.loads` becomes the executable `jsonLoads` (modelling the
integer fragment of JSON numbers; fractional/exponent numerals are rejected),
Python dictionaries become association lists with first-occurrence lookup and
in-place update, and Python runtime exceptions (`AttributeError`, `TypeError`)
that the sources do not catch are modelled with `Except PyErr`.
-/

set_option maxRecDepth 10000

/-- The opening brace character, written via an escape. -/
def lbrace : Char := '\x7b'

/-- The closing brace character, written via an escape. -/
def rbrace : Char := '\x7d'

/-- A decoded JSON value (Python object produced by `json.loads`). -/
inductive JVal where
  | jnull : JVal
  | jbool (b : Bool) : JVal
  | jnum (n : Int) : JVal
  | jstr (s : String) : JVal
  | jarr (xs : List JVal) : JVal
  | jobj (kvs : List (String × JVal)) : JVal
deriving Repr

mutual

/-- Structural equality test on JSON values (Python `==` on decoded values,
restricted to the shapes `json.loads` can produce). -/
def jvalBeq : JVal → JVal → Bool
  | .jnull, .jnull => true
  | .jbool a, .jbool b => a == b
  | .jnum a, .jnum b => a == b
  | .jstr a, .jstr b => a == b
  | .jarr xs, .jarr ys => jvalListBeq xs ys
  | .jobj xs, .jobj ys => jvalKvsBeq xs ys
  | _, _ => false

/-- Elementwise `jvalBeq` on lists. -/
def jvalListBeq : List JVal → List JVal → Bool
  | [], [] => true
  | x :: xs, y :: ys => jvalBeq x y && jvalListBeq xs ys
  | _, _ => false

/-- Pairwise `jvalBeq` on key-value lists. -/
def jvalKvsBeq : List (String × JVal) → List (String × JVal) → Bool
  | [], [] => true
  | (k1, v1) :: xs, (k2, v2) :: ys => k1 == k2 && jvalBeq v1 v2 && jvalKvsBeq xs ys
  | _, _ => false

end

instance : BEq JVal := ⟨jvalBeq⟩

/-- Python exceptions that the embedded code can raise and not catch. -/
inductive PyErr where
  | attributeError : PyErr
  | typeError : PyErr
  | keyError : PyErr
deriving Repr, DecidableEq

/-- Python truthiness (`bool(v)`) of a decoded JSON value. -/
def truthy : JVal → Bool
  | .jnull => false
  | .jbool b => b
  | .jnum n => n != 0
  | .jstr s => !(s.isEmpty)
  | .jarr xs => !(xs.isEmpty)
  | .jobj kvs => !(kvs.isEmpty)

/-- First-occurrence lookup in an association list (Python `dict` lookup). -/
def dictGet? : List (String × JVal) → String → Option JVal
  | [], _ => none
  | p :: rest, k => if p.1 = k then some p.2 else dictGet? rest k

/-- Python `d.get(k, default)` on an association list. -/
def dictGetD (kvs : List (String × JVal)) (k : String) (d : JVal) : JVal :=
  (dictGet? kvs k).getD d

/-- Python `k in d` on an association list. -/
def dictMem (kvs : List (String × JVal)) (k : String) : Bool :=
  (dictGet? kvs k).isSome

/-- Python `d[k] = v`: replace the value at an existing key in place,
append the pair otherwise. -/
def dictSet (kvs : List (String × JVal)) (k : String) (v : JVal) :
    List (String × JVal) :=
  if dictMem kvs k then
    kvs.map (fun p => if p.1 = k then (p.1, v) else p)
  else
    kvs ++ [(k, v)]

/-- Python `d.get(k, default)`: only dictionaries have `.get`;
any other receiver raises `AttributeError`. -/
def pyGet (v : JVal) (k : String) (dflt : JVal) : Except PyErr JVal :=
  match v with
  | .jobj kvs => .ok (dictGetD kvs k dflt)
  | _ => .error .attributeError

/-- Python `k in v` for a string key: key membership on dicts, element
membership on lists, substring test on strings, `TypeError` otherwise. -/
def pyIn (k : String) (v : JVal) : Except PyErr Bool :=
  match v with
  | .jobj kvs => .ok (dictMem kvs k)
  | .jarr xs => .ok (xs.contains (.jstr k))
  | .jstr s => .ok ((s.splitOn k).length > 1)
  | _ => .error .typeError

/-- Python `v[k] = x` for a string key: in-place dict update;
any other receiver raises `TypeError`. -/
def pySetItem (v : JVal) (k : String) (x : JVal) : Except PyErr JVal :=
  match v with
  | .jobj kvs => .ok (.jobj (dictSet kvs k x))
  | _ => .error .typeError

/-- Python `v[k]` for a string key on a dict whose key is present;
other receivers raise, a missing key raises `KeyError`. -/
def pySubscript (v : JVal) (k : String) : Except PyErr JVal :=
  match v with
  | .jobj kvs =>
    match dictGet? kvs k with
    | some x => .ok x
    | none => .error .keyError
  | _ => .error .typeError

/-- Characters stripped by Python `str.strip()` (the ASCII whitespace set). -/
def pyIsSpace (c : Char) : Bool :=
  c = ' ' || c = '\t' || c = '\n' || c = '\r' || c = '\x0b' || c = '\x0c'

/-- Python `text.strip()`. -/
def pyStrip (s : String) : String :=
  String.mk (((s.toList.dropWhile pyIsSpace).reverse.dropWhile pyIsSpace).reverse)

/-- Lowest index at which `sub` occurs in `cs` (Python `str.find`),
`none` when absent. -/
def strFindList (sub : List Char) : List Char → Option Nat
  | [] => if sub.isPrefixOf ([] : List Char) then some 0 else none
  | c :: rest =>
    if sub.isPrefixOf (c :: rest) then some 0
    else (strFindList sub rest).map (· + 1)

/-- Highest index at which `sub` occurs in `cs` (Python `str.rfind`),
`none` when absent. -/
def strRfindList (sub : List Char) : List Char → Option Nat
  | [] => if sub.isPrefixOf ([] : List Char) then some 0 else none
  | c :: rest =>
    match strRfindList sub rest with
    | some j => some (j + 1)
    | none => if sub.isPrefixOf (c :: rest) then some 0 else none

/-- Python `text.find(sub)` (as an option instead of `-1`). -/
def strFind (text sub : String) : Option Nat :=
  strFindList sub.toList text.toList

/-- Python `text.rfind(sub)` (as an option instead of `-1`). -/
def strRfind (text sub : String) : Option Nat :=
  strRfindList sub.toList text.toList

/-- Python `sub in text` on strings. -/
def containsSub (text sub : String) : Bool :=
  (strFind text sub).isSome

/-- Python `text.startswith(p)`. -/
def pyStartsWith (s p : String) : Bool :=
  p.toList.isPrefixOf s.toList

/-- Python `text.endswith(p)`. -/
def pyEndsWith (s p : String) : Bool :=
  p.toList.reverse.isPrefixOf s.toList.reverse

/-- Python `text.split(chr)` on a single separator character. -/
def splitChar (sep : Char) (cs : List Char) : List (List Char) :=
  cs.foldr
    (fun c acc =>
      if c = sep then [] :: acc
      else
        match acc with
        | h :: t => (c :: h) :: t
        | [] => [[c]])
    [[]]

/-- `output.strip().split(chr(10))`, the line splitting all three adapters use. -/
def splitLines (output : String) : List String :=
  (splitChar '\n' (pyStrip output).toList).map String.mk

/-! ### An executable model of Python `json.loads`

Only the integer fragment of JSON numbers is modelled: numerals with a
fractional part or an exponent are rejected rather than decoded to floats.
No claim below depends on a non-integer numeral. -/

/-- JSON structural whitespace accepted by the decoder. -/
def jsonWs (c : Char) : Bool :=
  c = ' ' || c = '\t' || c = '\n' || c = '\r'

/-- Skip JSON structural whitespace. -/
def skipWs : List Char → List Char
  | [] => []
  | c :: rest => if jsonWs c then skipWs rest else c :: rest

/-- Value of a hexadecimal digit. -/
def hexDigit? (c : Char) : Option Nat :=
  if '0' ≤ c ∧ c ≤ '9' then some (c.toNat - '0'.toNat)
  else if 'a' ≤ c ∧ c ≤ 'f' then some (c.toNat - 'a'.toNat + 10)
  else if 'A' ≤ c ∧ c ≤ 'F' then some (c.toNat - 'A'.toNat + 10)
  else none

/-- Decode the body of a JSON string literal after the opening quote,
returning the decoded characters and the input after the closing quote. -/
def parseStringBody : List Char → Option (List Char × List Char)
  | [] => none
  | c :: rest =>
    if c = '"' then some ([], rest)
    else if c = '\\' then
      match rest with
      | [] => none
      | e :: rest2 =>
        if e = '"' then (parseStringBody rest2).map (fun p => ('"' :: p.1, p.2))
        else if e = '\\' then (parseStringBody rest2).map (fun p => ('\\' :: p.1, p.2))
        else if e = '/' then (parseStringBody rest2).map (fun p => ('/' :: p.1, p.2))
        else if e = 'b' then (parseStringBody rest2).map (fun p => ('\x08' :: p.1, p.2))
        else if e = 'f' then (parseStringBody rest2).map (fun p => ('\x0c' :: p.1, p.2))
        else if e = 'n' then (parseStringBody rest2).map (fun p => ('\n' :: p.1, p.2))
        else if e = 'r' then (parseStringBody rest2).map (fun p => ('\r' :: p.1, p.2))
        else if e = 't' then (parseStringBody rest2).map (fun p => ('\t' :: p.1, p.2))
        else if e = 'u' then
          match rest2 with
          | h1 :: h2 :: h3 :: h4 :: rest3 =>
            match hexDigit? h1, hexDigit? h2, hexDigit? h3, hexDigit? h4 with
            | some a, some b, some c2, some d =>
              (parseStringBody rest3).map
                (fun p => (Char.ofNat (((a * 16 + b) * 16 + c2) * 16 + d) :: p.1, p.2))
            | _, _, _, _ => none
          | _ => none
        else none
    else if c.toNat < 32 then none
    else (parseStringBody rest).map (fun p => (c :: p.1, p.2))

/-- Consume a run of decimal digits, most significant first. -/
def parseDigits : List Char → Nat → (Nat × List Char)
  | c :: rest, acc =>
    if c.isDigit then parseDigits rest (acc * 10 + (c.toNat - '0'.toNat))
    else (acc, c :: rest)
  | [], acc => (acc, [])

/-- Decode a JSON integer numeral (the modelled number fragment).
Numerals with a leading zero, a fractional part or an exponent fail. -/
def parseNumber (cs : List Char) : Option (JVal × List Char) :=
  let (neg, cs1) :=
    match cs with
    | '-' :: r => (true, r)
    | _ => (false, cs)
  match cs1 with
  | [] => none
  | d :: r =>
    if ¬ d.isDigit then none
    else if d = '0' && (match r with | d2 :: _ => d2.isDigit | [] => false) then none
    else
      let (n, rest) := parseDigits (d :: r) 0
      match rest with
      | e :: _ =>
        if e = '.' ∨ e = 'e' ∨ e = 'E' then none
        else some (.jnum (if neg then -(n : Int) else (n : Int)), rest)
      | [] => some (.jnum (if neg then -(n : Int) else (n : Int)), [])

mutual

/-- Decode one JSON value, fuelled; returns the value and remaining input. -/
def parseVal : Nat → List Char → Option (JVal × List Char)
  | 0, _ => none
  | Nat.succ fuel, cs =>
    match skipWs cs with
    | [] => none
    | c :: rest =>
      if c = '"' then
        (parseStringBody rest).map (fun p => (.jstr (String.mk p.1), p.2))
      else if c = lbrace then
        match skipWs rest with
        | d :: r2 =>
          if d = rbrace then some (.jobj [], r2)
          else parseMembers fuel (d :: r2) []
        | [] => none
      else if c = '[' then
        match skipWs rest with
        | d :: r2 =>
          if d = ']' then some (.jarr [], r2)
          else parseElems fuel (d :: r2) []
        | [] => none
      else if c = 't' then
        match rest with
        | 'r' :: 'u' :: 'e' :: r => some (.jbool true, r)
        | _ => none
      else if c = 'f' then
        match rest with
        | 'a' :: 'l' :: 's' :: 'e' :: r => some (.jbool false, r)
        | _ => none
      else if c = 'n' then
        match rest with
        | 'u' :: 'l' :: 'l' :: r => some (.jnull, r)
        | _ => none
      else if c = '-' ∨ c.isDigit then parseNumber (c :: rest)
      else none

/-- Decode the members of a JSON object after its opening brace, building the
dictionary with `dictSet` (so a duplicated key keeps its first position and
its last value, as in Python). -/
def parseMembers : Nat → List Char → List (String × JVal) →
    Option (JVal × List Char)
  | 0, _, _ => none
  | Nat.succ fuel, cs, acc =>
    match cs with
    | c :: rest =>
      if c = '"' then
        match parseStringBody rest with
        | some (kcs, r1) =>
          match skipWs r1 with
          | ':' :: r2 =>
            match parseVal fuel r2 with
            | some (v, r3) =>
              let acc2 := dictSet acc (String.mk kcs) v
              match skipWs r3 with
              | ',' :: r4 =>
                match skipWs r4 with
                | d :: r5 => parseMembers fuel (d :: r5) acc2
                | [] => none
              | d :: r4 =>
                if d = rbrace then some (.jobj acc2, r4) else none
              | [] => none
            | none => none
          | _ => none
        | none => none
      else none
    | [] => none

/-- Decode the elements of a JSON array after its opening bracket. -/
def parseElems : Nat → List Char → List JVal → Option (JVal × List Char)
  | 0, _, _ => none
  | Nat.succ fuel, cs, acc =>
    match parseVal fuel cs with
    | some (v, r1) =>
      match skipWs r1 with
      | ',' :: r2 => parseElems fuel r2 (v :: acc)
      | d :: r2 =>
        if d = ']' then some (.jarr (v :: acc).reverse, r2) else none
      | [] => none
    | none => none

end

/-- The model of Python `json.loads` on a string: decode one JSON value and
require only whitespace after it. -/
def jsonLoads (s : String) : Option JVal :=
  match parseVal (s.length + 2) s.toList with
  | some (v, rest) => if (skipWs rest).isEmpty then some v else none
  | none => none

/-! ### Text Scanner: `extract_json_block`

`codex_parser.py` lines 14-49 and `opencode_parser.py` lines 16-51 share the
same scanning body after `text.strip()`; `claude_parser.py` lines 15-57 add an
un-escaping step first. The shared body is `extract_json_block_core`, applied
to the stripped (and possibly un-escaped) text. -/

/-- Brace-depth scan step function returning the count of characters consumed
up to and including the brace closing the first object, mirroring
`for i in range(start, len(text))` with `brace_count`. -/
def braceGo : List Char → Int → Option Nat
  | [], _ => none
  | c :: rest, n =>
    if c = lbrace then (braceGo rest (n + 1)).map (· + 1)
    else if c = rbrace then
      if n - 1 = 0 then some 1 else (braceGo rest (n - 1)).map (· + 1)
    else (braceGo rest n).map (· + 1)

/-- The brace-counting fallback: from the first opening brace, return the
span that ends where the running brace count returns to zero. -/
def braceScan (text : String) : Option String :=
  match strFindList [lbrace] text.toList with
  | none => none
  | some s =>
    (braceGo (text.toList.drop s) 0).map
      (fun k => String.mk ((text.toList.drop s).take k))

/-- The fenced-code-block heuristic: the inclusive span from the first
opening brace to the last closing brace, when both exist in that order. -/
def fenceSpan (text : String) : Option String :=
  match strFindList [lbrace] text.toList, strRfindList [rbrace] text.toList with
  | some s, some e =>
    if s < e then some (String.mk ((text.toList.drop s).take (e + 1 - s)))
    else none
  | _, _ => none

/-- The shared body of `extract_json_block` on already-stripped text:
fence heuristic, then whole-text check, then brace-counting fallback.
A fence marker whose brace span is absent falls through, as in the source. -/
def extract_json_block_core (text : String) : Option String :=
  match (if containsSub text "```json" then fenceSpan text else none) with
  | some r => some r
  | none =>
    match (if containsSub text "```" then fenceSpan text else none) with
    | some r => some r
    | none =>
      if pyStartsWith text (String.mk [lbrace]) &&
          pyEndsWith text (String.mk [rbrace]) then some text
      else braceScan text

/-- `extract_json_block` of `codex_parser.py` (and, but for returning the
empty string instead of `None`, of `opencode_parser.py`): strip, then scan. -/
def extract_json_block_codex (text : String) : Option String :=
  extract_json_block_core (pyStrip text)

/-- `extract_json_block` of `opencode_parser.py`: identical body but its
no-object case returns the empty string. -/
def extract_json_block_open (text : String) : String :=
  (extract_json_block_codex text).getD ""

/-- `extract_json_block` of `claude_parser.py`: after stripping, when the text
contains a backslash-n or backslash-quote sequence the whole text is first
fed to `json.loads`; on success scanning proceeds on the decoded value, which
raises `AttributeError` further down when that value is not a string. -/
def extract_json_block_claude (text : String) : Except PyErr (Option String) :=
  let t := pyStrip text
  if containsSub t "\\n" || containsSub t "\\\"" then
    match jsonLoads t with
    | some (.jstr s) => .ok (extract_json_block_core s)
    | some _ => .error .attributeError
    | none => .ok (extract_json_block_core t)
  else .ok (extract_json_block_core t)

/-! ### Summary Validator: `parse_summary_from_raw` / `parse_summary_from_line`

`codex_parser.py` lines 80-101, `opencode_parser.py` lines 54-75 and
`claude_parser.py` lines 60-81 have the same body. The Python function
mutates its argument (the `task_id` normalization) and returns the same
object; the embedding returns the updated value. -/

/-- `parse_summary_from_raw` (`codex_parser.py` lines 80-101). -/
def parse_summary_from_raw (raw : JVal) : Except PyErr (Option JVal) :=
  match pyIn "task_id" raw with
  | .error e => .error e
  | .ok has_task_id =>
  match pyIn "status" raw with
  | .error e => .error e
  | .ok has_status =>
  match pyIn "summary" raw with
  | .error e => .error e
  | .ok has_summary =>
  match pyIn "files" raw with
  | .error e => .error e
  | .ok has_files =>
  match pyIn "blockers" raw with
  | .error e => .error e
  | .ok has_blockers =>
  if !(has_task_id || has_status || has_summary || has_files || has_blockers) then
    .ok none
  else
    match pyGet raw "task_id" .jnull with
    | .error e => .error e
    | .ok t =>
    match (match t with
           | .jnull => pySetItem raw "task_id" (.jstr "")
           | _ => .ok raw) with
    | .error e => .error e
    | .ok raw2 =>
    match pyGet raw2 "task_id" .jnull with
    | .error e => .error e
    | .ok v1 =>
    match pyGet raw2 "status" .jnull with
    | .error e => .error e
    | .ok v2 =>
    match pyGet raw2 "summary" .jnull with
    | .error e => .error e
    | .ok v3 =>
    if !truthy v1 && !truthy v2 && !truthy v3 then
      match pyGet raw2 "files" .jnull with
      | .error e => .error e
      | .ok v4 =>
      match pyGet raw2 "blockers" .jnull with
      | .error e => .error e
      | .ok v5 =>
      if !truthy v4 && !truthy v5 then .ok none else .ok (some raw2)
    else .ok (some raw2)

/-- `parse_summary_from_line` (`claude_parser.py` lines 60-81); its body is
character-for-character the body of `parse_summary_from_raw`. -/
def parse_summary_from_line (line : JVal) : Except PyErr (Option JVal) :=
  parse_summary_from_raw line

/-! ### Content Normalizer: `extract_text_from_message`

`codex_parser.py` lines 52-77 = `claude_parser.py` lines 84-109. The dict
content case returns `content["text"]` unchecked, so the result can be any
JSON value, not only a string; the list case joins with a newline, raising
`TypeError` when a kept part is not a string. -/

/-- Parts kept from a content list: non-empty strings, and truthy `text`
fields of dict parts. -/
def collectParts : List JVal → List JVal
  | [] => []
  | .jstr s :: rest =>
    if !s.isEmpty then .jstr s :: collectParts rest else collectParts rest
  | .jobj kvs :: rest =>
    if dictMem kvs "text" then
      if truthy (dictGetD kvs "text" .jnull) then
        dictGetD kvs "text" .jnull :: collectParts rest
      else collectParts rest
    else collectParts rest
  | _ :: rest => collectParts rest

/-- Require every part to be a string (Python `str.join` raises otherwise). -/
def asStrList : List JVal → Except PyErr (List String)
  | [] => .ok []
  | .jstr s :: rest =>
    match asStrList rest with
    | .error e => .error e
    | .ok ss => .ok (s :: ss)
  | _ :: _ => .error .typeError

/-- Python `"\n".join(parts)`: every part must be a string. -/
def joinWithNl (parts : List JVal) : Except PyErr String :=
  match asStrList parts with
  | .error e => .error e
  | .ok ss => .ok (String.intercalate "\n" ss)

/-- `extract_text_from_message` (`codex_parser.py` lines 52-77). -/
def extract_text_from_message (msg : JVal) : Except PyErr JVal :=
  match pyIn "message" msg with
  | .error e => .error e
  | .ok hasMsg =>
  match (if hasMsg then
           match pySubscript msg "message" with
           | .error e => .error e
           | .ok inner => pyGet inner "content" (.jstr "")
         else pyGet msg "content" (.jstr "")) with
  | .error e => .error e
  | .ok content =>
  match content with
  | .jstr s => .ok (.jstr s)
  | .jobj kvs =>
    if dictMem kvs "text" then .ok (dictGetD kvs "text" .jnull)
    else .ok (.jstr "")
  | .jarr xs =>
    match joinWithNl (collectParts xs) with
    | .error e => .error e
    | .ok s => .ok (.jstr s)
  | _ => .ok (.jstr "")

/-! ### Format Adapter A: `parse_claude_stream_json` (`claude_parser.py` 112-186)

Per-line state: `last_assistant_content` (a string: it is only ever assigned
from a content value that has already been used as a string) and
`last_message_content` (initially the empty string, but assignable to any
truthy value `extract_text_from_message` returns). -/

/-- The two accumulators of `parse_claude_stream_json`. -/
structure ClaudeState where
  lastAssistant : String
  lastMessage : JVal
deriving Repr

/-- Outcome of processing one line: an immediate `return obj`, or continue
with updated accumulators. -/
inductive ClaudeStep where
  | ret (v : JVal) : ClaudeStep
  | cont (s : ClaudeState) : ClaudeStep
deriving Repr

/-- The `assistant_message` block (`claude_parser.py` lines 127-150):
un-escape attempt, block extraction (which can raise), the guarded
short-circuit return, and the one-shot assistant-content accumulator. -/
def claudeAssist (st : ClaudeState) (data ty : JVal) : Except PyErr ClaudeStep :=
  if ty == .jstr "assistant_message" then
    match pyGet data "content" (.jstr "") with
    | .error e => .error e
    | .ok content0 =>
      if truthy content0 then
        let content :=
          match content0 with
          | .jstr s => (jsonLoads s).getD (.jstr s)
          | v => v
        match content with
        | .jstr cs =>
          match extract_json_block_claude cs with
          | .error e => .error e
          | .ok jsOpt =>
            let shortcut : Option JVal :=
              match jsOpt with
              | some js =>
                match jsonLoads js with
                | some obj =>
                  match pyIn "task_id" obj, pyIn "status" obj with
                  | .ok true, .ok true => some obj
                  | _, _ => none
                | none => none
              | none => none
            match shortcut with
            | some obj => .ok (.ret obj)
            | none =>
              if st.lastAssistant = "" then
                .ok (.cont { st with lastAssistant := cs })
              else .ok (.cont st)
        | _ => .error .attributeError
      else .ok (.cont st)
  else .ok (.cont st)

/-- The full-message block (`claude_parser.py` lines 152-156). -/
def claudeMessage (st : ClaudeState) (data : JVal) : Except PyErr ClaudeState :=
  match pyIn "message" data with
  | .error e => .error e
  | .ok false => .ok st
  | .ok true =>
    match extract_text_from_message data with
    | .error e => .error e
    | .ok text =>
      if truthy text then .ok { st with lastMessage := text } else .ok st

/-- Python `a + b` as used for `last_message_content += delta["text"]`:
string, numeric or list concatenation, `TypeError` on mixed shapes. -/
def pyAdd : JVal → JVal → Except PyErr JVal
  | .jstr a, .jstr b => .ok (.jstr (a ++ b))
  | .jnum a, .jnum b => .ok (.jnum (a + b))
  | .jarr a, .jarr b => .ok (.jarr (a ++ b))
  | _, _ => .error .typeError

/-- The stream-delta block (`claude_parser.py` lines 158-162). -/
def claudeDelta (st : ClaudeState) (data ty : JVal) : Except PyErr ClaudeState :=
  if ty == .jstr "content_block_delta" then
    match pyGet data "delta" (.jobj []) with
    | .error e => .error e
    | .ok delta =>
      match delta with
      | .jobj kvs =>
        if dictMem kvs "text" then
          match pyAdd st.lastMessage (dictGetD kvs "text" .jnull) with
          | .error e => .error e
          | .ok v => .ok { st with lastMessage := v }
        else .ok st
      | _ => .ok st
  else .ok st

/-- One loop iteration of `parse_claude_stream_json` (lines 117-162): skip
blank and non-JSON lines, then run the three non-exclusive blocks in order. -/
def claudeLine (st : ClaudeState) (line : String) : Except PyErr ClaudeStep :=
  if pyStrip line = "" then .ok (.cont st)
  else
    match jsonLoads line with
    | none => .ok (.cont st)
    | some data =>
      match pyGet data "type" .jnull with
      | .error e => .error e
      | .ok ty =>
        match claudeAssist st data ty with
        | .error e => .error e
        | .ok (.ret v) => .ok (.ret v)
        | .ok (.cont st1) =>
          match claudeMessage st1 data with
          | .error e => .error e
          | .ok st2 =>
            match claudeDelta st2 data ty with
            | .error e => .error e
            | .ok st3 => .ok (.cont st3)

/-- One fallback attempt over an accumulated text (`claude_parser.py` lines
165-173 and 176-184): extract a block, decode it, validate it; `.ok none`
means fall through to the next fallback. -/
def claudeTryContent (text : String) : Except PyErr (Option JVal) :=
  match extract_json_block_claude text with
  | .error e => .error e
  | .ok none => .ok none
  | .ok (some js) =>
    match jsonLoads js with
    | none => .ok none
    | some summary =>
      match parse_summary_from_line summary with
      | .ok (some s) => .ok (some s)
      | _ => .ok none

/-- The post-loop fallbacks of `parse_claude_stream_json` (lines 164-186):
assistant content first, then accumulated message content. -/
def claudeFinish (st : ClaudeState) : Except PyErr (Option JVal) :=
  match (if st.lastAssistant ≠ "" then claudeTryContent st.lastAssistant
         else .ok none) with
  | .error e => .error e
  | .ok (some s) => .ok (some s)
  | .ok none =>
    if truthy st.lastMessage then
      match st.lastMessage with
      | .jstr ms => claudeTryContent ms
      | _ => .error .attributeError
    else .ok none

/-- The line loop of `parse_claude_stream_json`. -/
def claudeScan : ClaudeState → List String → Except PyErr (Option JVal)
  | st, [] => claudeFinish st
  | st, l :: ls =>
    match claudeLine st l with
    | .error e => .error e
    | .ok (.ret v) => .ok (some v)
    | .ok (.cont st2) => claudeScan st2 ls

/-- `parse_claude_stream_json` (`claude_parser.py` lines 112-186). -/
def parse_claude_stream_json (output : String) : Except PyErr (Option JVal) :=
  claudeScan ⟨"", .jstr ""⟩ (splitLines output)

/-! ### Format Adapter B: `parse_codex_ndjson` (`codex_parser.py` 104-137) -/

/-- One loop iteration of `parse_codex_ndjson`: direct validation first
(uncaught), then text extraction (block decode and validation caught,
the extraction itself uncaught). -/
def codexLine (last : Option JVal) (line : String) : Except PyErr (Option JVal) :=
  if pyStrip line = "" then .ok last
  else
    match jsonLoads line with
    | none => .ok last
    | some data =>
      match parse_summary_from_raw data with
      | .error e => .error e
      | .ok (some s) => .ok (some s)
      | .ok none =>
        match extract_text_from_message data with
        | .error e => .error e
        | .ok text =>
          if truthy text then
            match text with
            | .jstr ts =>
              match extract_json_block_codex ts with
              | some js =>
                (match jsonLoads js with
                 | some obj =>
                   match parse_summary_from_raw obj with
                   | .ok (some s) => .ok (some s)
                   | _ => .ok last
                 | none => .ok last)
              | none => .ok last
            | _ => .error .attributeError
          else .ok last

/-- The line loop of `parse_codex_ndjson` (last valid candidate wins). -/
def codexScan : Option JVal → List String → Except PyErr (Option JVal)
  | last, [] => .ok last
  | last, l :: ls =>
    match codexLine last l with
    | .error e => .error e
    | .ok last2 => codexScan last2 ls

/-- `parse_codex_ndjson` (`codex_parser.py` lines 104-137). -/
def parse_codex_ndjson (output : String) : Except PyErr (Option JVal) :=
  codexScan none (splitLines output)

/-! ### Format Adapter C: `parse_opencode_output` (`opencode_parser.py` 78-115)

Every fallible step of this adapter sits inside a bare `try/except`, so the
embedding returns a plain `Option JVal`: no exception escapes. -/

/-- One tier-3 line attempt (`opencode_parser.py` lines 107-113): decode and
validate directly, every failure (including a raised one) skipping the line. -/
def opencodeLineTry (line : String) : Option JVal :=
  match jsonLoads line with
  | none => none
  | some data =>
    match parse_summary_from_raw data with
    | .ok (some s) => some s
    | _ => none

/-- Tier 3 of `parse_opencode_output` (lines 103-113): first line whose
decoded event validates wins. -/
def opencode_scan_lines : List String → Option JVal
  | [] => none
  | l :: ls =>
    if pyStrip l = "" then opencode_scan_lines ls
    else
      match opencodeLineTry l with
      | some s => some s
      | none => opencode_scan_lines ls

/-- Tier 1 of `parse_opencode_output` (lines 83-90): decode the entire
stripped blob as one JSON value and validate it, every failure (including a
raised one) degrading to absence. -/
def opencode_tier1 (output : String) : Option JVal :=
  match jsonLoads (pyStrip output) with
  | some data =>
    match parse_summary_from_raw data with
    | .ok (some s) => some s
    | _ => none
  | none => none

/-- Tier 2 of `parse_opencode_output` (lines 92-101): extract a JSON block
from the whole blob, decode and validate it, failures degrading to absence. -/
def opencode_tier2 (output : String) : Option JVal :=
  let json_str := extract_json_block_open output
  if json_str ≠ "" then
    match jsonLoads json_str with
    | some obj =>
      match parse_summary_from_raw obj with
      | .ok (some s) => some s
      | _ => none
    | none => none
  else none

/-- `parse_opencode_output` (`opencode_parser.py` lines 78-115): whole-blob
decode, then whole-blob extraction, then per-line scanning. -/
def parse_opencode_output (output : String) : Option JVal :=
  match opencode_tier1 output with
  | some s => some s
  | none =>
    match opencode_tier2 output with
    | some s => some s
    | none => opencode_scan_lines (splitLines output)

/-! ### Helper lemmas: dictionary update and the validator's accepted shape -/

theorem dictGet?_cons (q : String × JVal) (l : List (String × JVal)) (k : String) :
    dictGet? (q :: l) k = if q.1 = k then some q.2 else dictGet? l k := rfl

theorem dictGet?_map_set_self (kvs : List (String × JVal)) (k : String) (v : JVal) :
    dictGet? (kvs.map (fun p => if p.1 = k then (p.1, v) else p)) k =
      (dictGet? kvs k).map (fun _ => v) := by
  induction kvs with
  | nil => rfl
  | cons p rest ih =>
    by_cases hp : p.1 = k
    · simp [dictGet?_cons, hp]
    · simp [dictGet?_cons, hp, ih]

theorem dictGet?_map_set_ne (kvs : List (String × JVal)) (k k2 : String) (v : JVal)
    (hne : k2 ≠ k) :
    dictGet? (kvs.map (fun p => if p.1 = k then (p.1, v) else p)) k2 =
      dictGet? kvs k2 := by
  induction kvs with
  | nil => rfl
  | cons p rest ih =>
    by_cases hp : p.1 = k
    · have hp2 : ¬ (p.1 = k2) := by rw [hp]; exact fun h => hne h.symm
      have hk : ¬ (k = k2) := fun h => hne h.symm
      simp [dictGet?_cons, hp, hp2, hk, ih]
    · simp [dictGet?_cons, hp, ih]

theorem dictGet?_append_single_self (kvs : List (String × JVal)) (k : String) (v : JVal)
    (h : dictMem kvs k = false) :
    dictGet? (kvs ++ [(k, v)]) k = some v := by
  induction kvs with
  | nil => simp [dictGet?_cons]
  | cons p rest ih =>
    by_cases hp : p.1 = k
    · simp [dictMem, dictGet?_cons, hp] at h
    · have hrest : dictMem rest k = false := by
        simpa [dictMem, dictGet?_cons, hp] using h
      simp [List.cons_append, dictGet?_cons, hp, ih hrest]

theorem dictGet?_append_single_ne (kvs : List (String × JVal)) (k k2 : String) (v : JVal)
    (hne : k2 ≠ k) :
    dictGet? (kvs ++ [(k, v)]) k2 = dictGet? kvs k2 := by
  induction kvs with
  | nil => simp [dictGet?, List.find?, show ¬ (k = k2) from fun h => hne h.symm]
  | cons p rest ih =>
    by_cases hp : p.1 = k2 <;> simp [List.cons_append, dictGet?_cons, hp, ih]

theorem dictGet?_set_self (kvs : List (String × JVal)) (k : String) (v : JVal) :
    dictGet? (dictSet kvs k v) k = some v := by
  unfold dictSet
  by_cases h : dictMem kvs k
  · obtain ⟨u, hu⟩ := Option.isSome_iff_exists.mp h
    simp [h, dictGet?_map_set_self, hu]
  · simp only [h, if_false, Bool.false_eq_true]
    exact dictGet?_append_single_self kvs k v (by simpa using h)

theorem dictGet?_set_ne (kvs : List (String × JVal)) (k k2 : String) (v : JVal)
    (hne : k2 ≠ k) :
    dictGet? (dictSet kvs k v) k2 = dictGet? kvs k2 := by
  unfold dictSet
  by_cases h : dictMem kvs k
  · simp [h, dictGet?_map_set_ne kvs k k2 v hne]
  · simp only [h, if_false, Bool.false_eq_true]
    exact dictGet?_append_single_ne kvs k k2 v hne

/-- The key-value list the validator hands back when it accepts: the
`task_id is None` normalization applied to the candidate dictionary. -/
def summaryNorm (kvs : List (String × JVal)) : List (String × JVal) :=
  match dictGetD kvs "task_id" .jnull with
  | .jnull => dictSet kvs "task_id" (.jstr "")
  | _ => kvs

/-- Whether the candidate has at least one of the five recognized keys. -/
def hasAnyKey (kvs : List (String × JVal)) : Bool :=
  dictMem kvs "task_id" || dictMem kvs "status" || dictMem kvs "summary" ||
    dictMem kvs "files" || dictMem kvs "blockers"

theorem summaryNorm_get_ne (kvs : List (String × JVal)) (k : String)
    (hne : k ≠ "task_id") :
    dictGet? (summaryNorm kvs) k = dictGet? kvs k := by
  unfold summaryNorm
  cases h : dictGetD kvs "task_id" .jnull
  case jnull => exact dictGet?_set_ne kvs "task_id" k (.jstr "") hne
  all_goals simp

theorem summaryNorm_get_task (kvs : List (String × JVal)) :
    dictGetD (summaryNorm kvs) "task_id" .jnull =
      (match dictGetD kvs "task_id" .jnull with
       | .jnull => .jstr ""
       | v => v) := by
  unfold summaryNorm
  cases h : dictGetD kvs "task_id" .jnull
  case jnull => simp [dictGetD, dictGet?_set_self]
  all_goals simp [h]

/-- Closed form of the validator on a dictionary candidate. -/
theorem psfr_obj (kvs : List (String × JVal)) :
    parse_summary_from_raw (.jobj kvs) =
      (if !hasAnyKey kvs then .ok none
       else if !truthy (dictGetD (summaryNorm kvs) "task_id" .jnull) &&
               !truthy (dictGetD (summaryNorm kvs) "status" .jnull) &&
               !truthy (dictGetD (summaryNorm kvs) "summary" .jnull) then
         if !truthy (dictGetD (summaryNorm kvs) "files" .jnull) &&
             !truthy (dictGetD (summaryNorm kvs) "blockers" .jnull) then .ok none
         else .ok (some (.jobj (summaryNorm kvs)))
       else .ok (some (.jobj (summaryNorm kvs)))) := by
  unfold parse_summary_from_raw pyIn pyGet pySetItem summaryNorm hasAnyKey
  cases h : dictGetD kvs "task_id" .jnull <;> simp [h]

/-- When the validator accepts a dictionary candidate, the returned object is
exactly the normalized dictionary. -/
theorem psfr_accept_shape (kvs : List (String × JVal)) (out : JVal)
    (h : parse_summary_from_raw (.jobj kvs) = .ok (some out)) :
    out = .jobj (summaryNorm kvs) := by
  rw [psfr_obj] at h
  split_ifs at h with h1 h2 h3 <;> simp_all

/-! ### Claim inputs -/

/-- A JSON-array line: `codex_parser.py` line 119 feeds it to
`parse_summary_from_raw`, where `raw.get` raises `AttributeError`. -/
def c1codexInput : String := "[\"task_id\"]"

/-- A JSON-array line: `claude_parser.py` line 127 calls `data.get` on it,
raising `AttributeError`. -/
def c1claudeInput : String := "[1, 2]"

/-- An `assistant_message` line whose content wraps the summary in prose, so
the content survives the un-escape attempt as a string. -/
def c2prose : String :=
  "\x7b\"type\": \"assistant_message\", \"content\": \"Result: \x7b\\\"task_id\\\": \\\"t1\\\", \\\"status\\\": \\\"done\\\"\x7d\"\x7d"

/-- An `assistant_message` line whose content is itself a bare JSON object
text: the un-escape step turns it into a dict and `extract_json_block`
raises `AttributeError`. -/
def c2bare : String :=
  "\x7b\"type\": \"assistant_message\", \"content\": \"\x7b\\\"task_id\\\": \\\"t1\\\", \\\"status\\\": \\\"done\\\"\x7d\"\x7d"

/-- The summary object carried by `c2prose`. -/
def c2obj : JVal := .jobj [("task_id", .jstr "t1"), ("status", .jstr "done")]

/-- A line that decodes directly to a valid summary (first). -/
def c3line1 : String := "\x7b\"task_id\": \"a\", \"status\": \"s1\"\x7d"

/-- A line that decodes directly to a valid summary (second). -/
def c3line2 : String := "\x7b\"task_id\": \"b\", \"status\": \"s2\"\x7d"

/-- A later line with no recognized key whose message text embeds a third
valid summary, recovered by extraction. -/
def c3line3 : String :=
  "\x7b\"message\": \x7b\"content\": \"note \x7b\\\"task_id\\\": \\\"c\\\", \\\"status\\\": \\\"s3\\\"\x7d\"\x7d\x7d"

/-- Three-line Adapter B input: two direct summary lines then `c3line3`. -/
def c3input : String := c3line1 ++ "\n" ++ c3line2 ++ "\n" ++ c3line3

/-- A whole-blob JSON object that validates as a summary while its second
physical line is a different, also-valid summary candidate. -/
def c4blob : String :=
  "\x7b\"task_id\": \"t1\", \"status\": \"one\", \"extra\":\n\x7b\"task_id\": \"t2\", \"status\": \"two\"\x7d\n\x7d"

/-- The second physical line of `c4blob`. -/
def c4line2 : String := "\x7b\"task_id\": \"t2\", \"status\": \"two\"\x7d"

/-- A prose line embedding a summary that only extraction would recover. -/
def c4prose : String := "note \x7b\"task_id\": \"x\", \"status\": \"ok\"\x7d"

/-- A direct summary line following `c4prose`. -/
def c4direct : String := "\x7b\"task_id\": \"y\", \"status\": \"ok2\"\x7d"

/-! ### Claims C1, C2, C3 -/

/-- C1: the claim says no internal decode or type failure is ever propagated
by the three adapter entry points. The code violates this: a JSON-array line
makes `parse_codex_ndjson` raise `AttributeError` inside
`parse_summary_from_raw` (`raw.get` on a list, `codex_parser.py` line 93),
and any non-object JSON line makes `parse_claude_stream_json` raise
`AttributeError` at `data.get` (`claude_parser.py` line 127). Only
`parse_opencode_output`, whose every fallible step sits inside `try/except`,
degrades these inputs to absence as the claim states. -/
theorem claim_C1_no_fatal_errors :
    parse_codex_ndjson c1codexInput = .error .attributeError ∧
    parse_claude_stream_json c1claudeInput = .error .attributeError ∧
    parse_opencode_output c1codexInput = none ∧
    parse_opencode_output c1claudeInput = none :=
  ⟨rfl, rfl, rfl, rfl⟩

/-- C2: an `assistant_message` event whose content's extracted JSON block has
both `task_id` and `status` short-circuits `parse_claude_stream_json`, with
all later lines ignored — provided the content survives the un-escape attempt
as a string. The first conjuncts prove the short-circuit for `c2prose` ahead
of an arbitrary remainder of the stream and from an arbitrary accumulator
state, and concretely past a later conflicting candidate line. The last
conjunct is the divergence: when the content is itself a bare JSON object
text (`c2bare`), the code raises `AttributeError` instead of returning it. -/
theorem claim_C2_assistant_short_circuit :
    (∀ (st : ClaudeState) (rest : List String),
        claudeScan st (c2prose :: rest) = .ok (some c2obj)) ∧
    parse_claude_stream_json c2prose = .ok (some c2obj) ∧
    parse_claude_stream_json
        (c2prose ++ "\n\x7b\"task_id\": \"zzz\", \"status\": \"other\"\x7d") =
      .ok (some c2obj) ∧
    parse_claude_stream_json c2bare = .error .attributeError :=
  ⟨fun _ _ => rfl, rfl, rfl, rfl⟩

/-- C3 counterexample: `c3input` contains two lines that each decode directly
to independently valid summary objects (first two conjuncts), yet the
returned summary is not the one from the last such line: the third line's
message text embeds a third candidate that overwrites it. -/
theorem claim_C3_counterexample :
    jsonLoads c3line1 = some (.jobj [("task_id", .jstr "a"), ("status", .jstr "s1")]) ∧
    parse_summary_from_raw (.jobj [("task_id", .jstr "a"), ("status", .jstr "s1")]) =
      .ok (some (.jobj [("task_id", .jstr "a"), ("status", .jstr "s1")])) ∧
    jsonLoads c3line2 = some (.jobj [("task_id", .jstr "b"), ("status", .jstr "s2")]) ∧
    parse_summary_from_raw (.jobj [("task_id", .jstr "b"), ("status", .jstr "s2")]) =
      .ok (some (.jobj [("task_id", .jstr "b"), ("status", .jstr "s2")])) ∧
    parse_codex_ndjson c3input =
      .ok (some (.jobj [("task_id", .jstr "c"), ("status", .jstr "s3")])) ∧
    JVal.jobj [("task_id", .jstr "c"), ("status", .jstr "s3")] ≠
      .jobj [("task_id", .jstr "b"), ("status", .jstr "s2")] :=
  ⟨rfl, rfl, rfl, rfl, rfl, by simp⟩

/-- C3 (amended): in `parse_codex_ndjson` later candidates overwrite earlier
ones whether they come from direct validation or from message-text
extraction; when the input consists of exactly two lines that each decode
directly to valid summaries, the returned summary is the second line's
normalized object — in particular its `status` value wins. -/
theorem claim_C3_last_wins (output l1 l2 : String) (d1 d2 : JVal) (s1 s2 : JVal)
    (hsplit : splitLines output = [l1, l2])
    (hb1 : pyStrip l1 ≠ "") (hl1 : jsonLoads l1 = some d1)
    (hp1 : parse_summary_from_raw d1 = .ok (some s1))
    (hb2 : pyStrip l2 ≠ "") (hl2 : jsonLoads l2 = some d2)
    (hp2 : parse_summary_from_raw d2 = .ok (some s2)) :
    parse_codex_ndjson output = .ok (some s2) := by
  have e1 : codexLine none l1 = .ok (some s1) := by
    simp only [codexLine, if_neg hb1, hl1, hp1]
  have e2 : codexLine (some s1) l2 = .ok (some s2) := by
    simp only [codexLine, if_neg hb2, hl2, hp2]
  unfold parse_codex_ndjson
  rw [hsplit]
  simp only [codexScan, e1, e2]

/-- C3 witness: the amended theorem applied to a concrete two-line input
whose lines differ in `status`; the second status is returned. -/
theorem claim_C3_witness :
    parse_codex_ndjson (c3line1 ++ "\n" ++ c3line2) =
      .ok (some (.jobj [("task_id", .jstr "b"), ("status", .jstr "s2")])) :=
  claim_C3_last_wins (c3line1 ++ "\n" ++ c3line2) c3line1 c3line2
    (.jobj [("task_id", .jstr "a"), ("status", .jstr "s1")])
    (.jobj [("task_id", .jstr "b"), ("status", .jstr "s2")])
    (.jobj [("task_id", .jstr "a"), ("status", .jstr "s1")])
    (.jobj [("task_id", .jstr "b"), ("status", .jstr "s2")])
    rfl (by decide) rfl rfl (by decide) rfl rfl

/-! ### Claim C4 -/

/-- C4: Adapter C tier precedence. (1) Whatever the rest of the text holds,
when the whole stripped blob decodes to a JSON value that validates, that
summary is returned (tier 1). (2) When tiers 1 and 2 yield nothing, the
adapter is exactly the per-line scan. (3) In that scan, the first line whose
decoded event validates directly wins, any earlier non-validating lines
being skipped. (4) The scan performs no per-line text extraction: a prose
line whose embedded block would validate is skipped in favour of a later
direct line. (5) A concrete blob where tier 1 wins over a different valid
per-line candidate appearing later in the same text. -/
theorem claim_C4_tier_precedence :
    (∀ (output : String) (d s : JVal),
        jsonLoads (pyStrip output) = some d →
        parse_summary_from_raw d = .ok (some s) →
        parse_opencode_output output = some s) ∧
    (∀ output : String, opencode_tier1 output = none → opencode_tier2 output = none →
        parse_opencode_output output = opencode_scan_lines (splitLines output)) ∧
    (∀ (pre : List String) (l : String) (post : List String) (s : JVal),
        (∀ l2 ∈ pre, opencodeLineTry l2 = none) →
        pyStrip l ≠ "" →
        opencodeLineTry l = some s →
        opencode_scan_lines (pre ++ l :: post) = some s) ∧
    (extract_json_block_codex c4prose = some "\x7b\"task_id\": \"x\", \"status\": \"ok\"\x7d" ∧
     parse_summary_from_raw (.jobj [("task_id", .jstr "x"), ("status", .jstr "ok")]) =
       .ok (some (.jobj [("task_id", .jstr "x"), ("status", .jstr "ok")])) ∧
     opencode_scan_lines [c4prose, c4direct] =
       some (.jobj [("task_id", .jstr "y"), ("status", .jstr "ok2")])) ∧
    (parse_opencode_output c4blob =
       some (.jobj [("task_id", .jstr "t1"), ("status", .jstr "one"),
         ("extra", .jobj [("task_id", .jstr "t2"), ("status", .jstr "two")])]) ∧
     opencodeLineTry c4line2 =
       some (.jobj [("task_id", .jstr "t2"), ("status", .jstr "two")]) ∧
     splitLines c4blob =
       ["\x7b\"task_id\": \"t1\", \"status\": \"one\", \"extra\":", c4line2, "\x7d"] ∧
     JVal.jobj [("task_id", .jstr "t1"), ("status", .jstr "one"),
         ("extra", .jobj [("task_id", .jstr "t2"), ("status", .jstr "two")])] ≠
       .jobj [("task_id", .jstr "t2"), ("status", .jstr "two")]) := by
  refine ⟨?_, ?_, ?_, ⟨rfl, rfl, rfl⟩, ⟨rfl, rfl, rfl, by simp⟩⟩
  · intro output d s hd hs
    unfold parse_opencode_output opencode_tier1
    simp only [hd, hs]
  · intro output h1 h2
    unfold parse_opencode_output
    rw [h1, h2]
  · intro pre
    induction pre with
    | nil =>
      intro l post s _ hb hl
      simp only [List.nil_append, opencode_scan_lines, if_neg hb, hl]
    | cons p rest ih =>
      intro l post s hpre hb hl
      have hp : opencodeLineTry p = none := hpre p (List.mem_cons_self p rest)
      have hrest : ∀ l2 ∈ rest, opencodeLineTry l2 = none :=
        fun l2 h2 => hpre l2 (List.mem_cons_of_mem p h2)
      by_cases hps : pyStrip p = ""
      · simpa only [List.cons_append, opencode_scan_lines, hps, if_pos] using
          ih l post s hrest hb hl
      · simp only [List.cons_append, opencode_scan_lines, if_neg hps, hp]
        exact ih l post s hrest hb hl

/-- C4 witness: tier 1 applied to a one-object blob, and tier 3 applied to a
prose line followed by a direct summary line. -/
theorem claim_C4_witness :
    parse_opencode_output "\x7b\"task_id\": \"w\", \"status\": \"ok\"\x7d" =
      some (.jobj [("task_id", .jstr "w"), ("status", .jstr "ok")]) ∧
    opencode_scan_lines ["plain prose", c4direct] =
      some (.jobj [("task_id", .jstr "y"), ("status", .jstr "ok2")]) := by
  constructor
  · exact claim_C4_tier_precedence.1 _
      (.jobj [("task_id", .jstr "w"), ("status", .jstr "ok")])
      (.jobj [("task_id", .jstr "w"), ("status", .jstr "ok")]) rfl rfl
  · refine claim_C4_tier_precedence.2.2.1 ["plain prose"] c4direct []
      (.jobj [("task_id", .jstr "y"), ("status", .jstr "ok2")]) ?_ (by decide) rfl
    intro l2 h2
    rw [List.mem_singleton] at h2
    subst h2
    rfl

/-! ### Claims C6, C7, C8, C9 (the Summary Validator) -/

/-- C6: the validator rejects a dictionary candidate exactly when it has none
of the five recognized keys, or all five are falsy or absent; in particular
the all-empty candidate is rejected while adding a non-empty `files` list
makes it accepted. -/
theorem claim_C6_emptiness_rejection :
    (∀ kvs : List (String × JVal),
      parse_summary_from_raw (.jobj kvs) = .ok none ↔
        (hasAnyKey kvs = false ∨
          (truthy (dictGetD kvs "task_id" .jnull) = false ∧
           truthy (dictGetD kvs "status" .jnull) = false ∧
           truthy (dictGetD kvs "summary" .jnull) = false ∧
           truthy (dictGetD kvs "files" .jnull) = false ∧
           truthy (dictGetD kvs "blockers" .jnull) = false))) ∧
    parse_summary_from_raw
        (.jobj [("task_id", .jstr ""), ("status", .jstr ""), ("summary", .jstr "")]) =
      .ok none ∧
    parse_summary_from_raw
        (.jobj [("task_id", .jstr ""), ("status", .jstr ""), ("summary", .jstr ""),
                ("files", .jarr [.jstr "a.py"])]) =
      .ok (some (.jobj [("task_id", .jstr ""), ("status", .jstr ""), ("summary", .jstr ""),
                ("files", .jarr [.jstr "a.py"])])) := by
  refine ⟨?_, rfl, rfl⟩
  intro kvs
  have htask : truthy (dictGetD (summaryNorm kvs) "task_id" .jnull) =
      truthy (dictGetD kvs "task_id" .jnull) := by
    rw [summaryNorm_get_task]
    cases dictGetD kvs "task_id" .jnull <;> rfl
  have hst : dictGetD (summaryNorm kvs) "status" .jnull = dictGetD kvs "status" .jnull := by
    unfold dictGetD; rw [summaryNorm_get_ne kvs "status" (by decide)]
  have hsu : dictGetD (summaryNorm kvs) "summary" .jnull = dictGetD kvs "summary" .jnull := by
    unfold dictGetD; rw [summaryNorm_get_ne kvs "summary" (by decide)]
  have hf : dictGetD (summaryNorm kvs) "files" .jnull = dictGetD kvs "files" .jnull := by
    unfold dictGetD; rw [summaryNorm_get_ne kvs "files" (by decide)]
  have hb : dictGetD (summaryNorm kvs) "blockers" .jnull = dictGetD kvs "blockers" .jnull := by
    unfold dictGetD; rw [summaryNorm_get_ne kvs "blockers" (by decide)]
  rw [psfr_obj kvs, htask, hst, hsu, hf, hb]
  split_ifs with h1 h2 h3
  · simp only [Bool.not_eq_true'] at h1
    simp [h1]
  · simp only [Bool.and_eq_true, Bool.not_eq_true'] at h2 h3
    simp [h2, h3]
  · simp only [Bool.and_eq_true, Bool.not_eq_true'] at h2
    simp only [Bool.not_eq_true'] at h1
    constructor
    · intro hcontra; cases hcontra
    · intro hor
      rcases hor with hnone | hall
      · exact absurd hnone h1
      · exact absurd (by simp [Bool.and_eq_true, Bool.not_eq_true', hall.2.2.2.1, hall.2.2.2.2]) h3
  · simp only [Bool.not_eq_true'] at h1
    constructor
    · intro hcontra; cases hcontra
    · intro hor
      rcases hor with hnone | hall
      · exact absurd hnone h1
      · exact absurd (by simp [Bool.and_eq_true, Bool.not_eq_true', hall.1, hall.2.1, hall.2.2.1]) h2

/-- C7: for an accepted dictionary candidate, a `task_id` key that is absent
and a `task_id` key present with JSON null both yield `task_id = ""` in the
returned summary — the two paths converge. -/
theorem claim_C7_null_id_normalization (kvs kvs2 : List (String × JVal))
    (h : parse_summary_from_raw (.jobj kvs) = .ok (some (.jobj kvs2)))
    (htask : dictGet? kvs "task_id" = none ∨ dictGet? kvs "task_id" = some .jnull) :
    dictGet? kvs2 "task_id" = some (.jstr "") := by
  have hshape := psfr_accept_shape kvs (.jobj kvs2) h
  have hkvs2 : kvs2 = summaryNorm kvs := by
    injection hshape
  subst hkvs2
  have hnull : dictGetD kvs "task_id" .jnull = .jnull := by
    rcases htask with hmiss | hnil
    · simp [dictGetD, hmiss]
    · simp [dictGetD, hnil]
  unfold summaryNorm
  rw [hnull]
  exact dictGet?_set_self kvs "task_id" (.jstr "")

/-- C7 witness: both the missing-key candidate and the null-valued candidate
normalize the identifier to the empty string. -/
theorem claim_C7_witness :
    dictGet? [("status", .jstr "ok"), ("summary", .jstr "done"), ("task_id", .jstr "")]
        "task_id" = some (.jstr "") ∧
    dictGet? [("task_id", .jstr ""), ("status", .jstr "ok")] "task_id" =
      some (.jstr "") :=
  ⟨claim_C7_null_id_normalization
      [("status", .jstr "ok"), ("summary", .jstr "done")]
      [("status", .jstr "ok"), ("summary", .jstr "done"), ("task_id", .jstr "")]
      rfl (Or.inl rfl),
   claim_C7_null_id_normalization
      [("task_id", .jnull), ("status", .jstr "ok")]
      [("task_id", .jstr ""), ("status", .jstr "ok")]
      rfl (Or.inr rfl)⟩

/-- C8 counterexample: the claim says a candidate supplied without any
`task_id` key keeps the key absent in the returned summary; the code instead
inserts `task_id = ""` (`raw.get("task_id") is None` also holds for a missing
key, `codex_parser.py` lines 92-94). -/
theorem claim_C8_counterexample :
    parse_summary_from_raw (.jobj [("status", .jstr "ok"), ("summary", .jstr "done")]) =
      .ok (some (.jobj [("status", .jstr "ok"), ("summary", .jstr "done"),
        ("task_id", .jstr "")])) ∧
    dictMem [("status", .jstr "ok"), ("summary", .jstr "done"), ("task_id", .jstr "")]
        "task_id" = true :=
  ⟨rfl, rfl⟩

/-- C8 (amended): a candidate accepted by the validator that was supplied
without any `task_id` key has the key inserted with the empty string as its
value — literal absence of the identifier key is not preserved; missing and
null identifiers are both coerced to the empty string. -/
theorem claim_C8_missing_id_inserted (kvs kvs2 : List (String × JVal))
    (h : parse_summary_from_raw (.jobj kvs) = .ok (some (.jobj kvs2)))
    (hmiss : dictGet? kvs "task_id" = none) :
    dictMem kvs2 "task_id" = true ∧ dictGet? kvs2 "task_id" = some (.jstr "") := by
  have hshape := psfr_accept_shape kvs (.jobj kvs2) h
  have hkvs2 : kvs2 = summaryNorm kvs := by
    injection hshape
  subst hkvs2
  have hget : dictGet? (summaryNorm kvs) "task_id" = some (.jstr "") := by
    unfold summaryNorm
    rw [show dictGetD kvs "task_id" .jnull = .jnull by simp [dictGetD, hmiss]]
    exact dictGet?_set_self kvs "task_id" (.jstr "")
  exact ⟨by simp [dictMem, hget], hget⟩

/-- C8 witness: the amended theorem applied to a candidate carrying only a
non-empty `files` list and no `task_id` key. -/
theorem claim_C8_witness :
    dictMem [("files", .jarr [.jstr "a.py"]), ("task_id", .jstr "")] "task_id" = true ∧
    dictGet? [("files", .jarr [.jstr "a.py"]), ("task_id", .jstr "")] "task_id" =
      some (.jstr "") :=
  claim_C8_missing_id_inserted [("files", .jarr [.jstr "a.py"])]
    [("files", .jarr [.jstr "a.py"]), ("task_id", .jstr "")] rfl rfl

/-- C9: for an accepted dictionary candidate, every key other than `task_id`
is looked up identically in the candidate and in the returned summary: the
value is unchanged, no such key is added and none is removed, so fields
beyond the five recognized ones pass through untouched. -/
theorem claim_C9_passthrough (kvs kvs2 : List (String × JVal)) (k : String)
    (h : parse_summary_from_raw (.jobj kvs) = .ok (some (.jobj kvs2)))
    (hk : k ≠ "task_id") :
    dictGet? kvs2 k = dictGet? kvs k := by
  have hshape := psfr_accept_shape kvs (.jobj kvs2) h
  have hkvs2 : kvs2 = summaryNorm kvs := by
    injection hshape
  subst hkvs2
  exact summaryNorm_get_ne kvs k hk

/-- C9 witness: an unrecognized `extra` field passes through untouched. -/
theorem claim_C9_witness :
    dictGet? [("task_id", .jstr ""), ("status", .jstr "ok"), ("extra", .jnum 42)]
        "extra" =
      dictGet? [("task_id", .jnull), ("status", .jstr "ok"), ("extra", .jnum 42)]
        "extra" :=
  claim_C9_passthrough
    [("task_id", .jnull), ("status", .jstr "ok"), ("extra", .jnum 42)]
    [("task_id", .jstr ""), ("status", .jstr "ok"), ("extra", .jnum 42)]
    "extra" rfl (by decide)

/-- C10: the immediate-return path of `parse_claude_stream_json` bypasses the
validator when it is taken: a prose-wrapped content whose block has a null
`task_id` is returned with the null intact (first conjunct), and an
all-empty object the validator would reject is still returned (second
conjunct). But the path is not taken for every qualifying event: when the
content is itself a bare JSON object text, the code raises `AttributeError`
instead of returning the decoded object (third conjunct, the divergence). -/
theorem claim_C10_bypasses_validator :
    parse_claude_stream_json
        "\x7b\"type\": \"assistant_message\", \"content\": \"Summary: \x7b\\\"task_id\\\": null, \\\"status\\\": \\\"ok\\\"\x7d\"\x7d" =
      .ok (some (.jobj [("task_id", .jnull), ("status", .jstr "ok")])) ∧
    parse_claude_stream_json
        "\x7b\"type\": \"assistant_message\", \"content\": \"x \x7b\\\"task_id\\\": \\\"\\\", \\\"status\\\": \\\"\\\"\x7d\"\x7d" =
      .ok (some (.jobj [("task_id", .jstr ""), ("status", .jstr "")])) ∧
    parse_summary_from_line (.jobj [("task_id", .jstr ""), ("status", .jstr "")]) =
      .ok none ∧
    parse_claude_stream_json
        "\x7b\"type\": \"assistant_message\", \"content\": \"\x7b\\\"task_id\\\": null, \\\"status\\\": \\\"ok\\\"\x7d\"\x7d" =
      .error .attributeError :=
  ⟨rfl, rfl, rfl, rfl⟩

/-! ### Claim C5: the Text Scanner

Brace-depth vocabulary used to state the claim, independent of the scanning
code: the depth of a character, the depth of a prefix, texts free of braces,
brace-balanced object spans, and the first position where the depth returns
to zero. -/

/-- Depth contribution of one character. -/
def charDepth (c : Char) : Int :=
  if c = lbrace then 1 else if c = rbrace then -1 else 0

/-- Brace depth of a character list: opening braces minus closing braces. -/
def braceDepth (cs : List Char) : Int :=
  (cs.map charDepth).sum

/-- A text with no unescaped braces at all. -/
def braceFree (cs : List Char) : Prop :=
  ∀ c ∈ cs, c ≠ lbrace ∧ c ≠ rbrace

/-- A well-formed object span at the brace level: starts with an opening
brace, closes back to depth zero exactly at its end, and every proper
non-empty prefix stays at positive depth. -/
def BalancedObj (cs : List Char) : Prop :=
  cs.head? = some lbrace ∧ braceDepth cs = 0 ∧
    ∀ k, k < cs.length → 0 < k → 0 < braceDepth (cs.take k)

/-- `j` is the first position at which the brace depth of `cs` returns to
zero. -/
def FirstRet (cs : List Char) (j : Nat) : Prop :=
  0 < j ∧ j ≤ cs.length ∧ braceDepth (cs.take j) = 0 ∧
    ∀ i, i < j → 0 < i → braceDepth (cs.take i) ≠ 0

instance (cs : List Char) : Decidable (braceFree cs) := by
  unfold braceFree
  infer_instance

instance (cs : List Char) : Decidable (BalancedObj cs) := by
  unfold BalancedObj
  infer_instance

instance (cs : List Char) (j : Nat) : Decidable (FirstRet cs j) := by
  unfold FirstRet
  infer_instance

theorem braceDepth_nil : braceDepth [] = 0 := rfl

theorem braceDepth_cons (c : Char) (cs : List Char) :
    braceDepth (c :: cs) = charDepth c + braceDepth cs := by
  simp [braceDepth]

theorem braceDepth_append (a b : List Char) :
    braceDepth (a ++ b) = braceDepth a + braceDepth b := by
  simp [braceDepth]

theorem charDepth_ge (c : Char) : -1 ≤ charDepth c := by
  unfold charDepth
  split_ifs <;> norm_num

theorem charDepth_le (c : Char) : charDepth c ≤ 1 := by
  unfold charDepth
  split_ifs <;> norm_num

theorem charDepth_of_free (c : Char) (h1 : c ≠ lbrace) (h2 : c ≠ rbrace) :
    charDepth c = 0 := by
  unfold charDepth
  rw [if_neg h1, if_neg h2]

theorem charDepth_eq_neg_one (c : Char) (h : charDepth c = -1) : c = rbrace := by
  by_cases h2 : c = rbrace
  · exact h2
  · by_cases h1 : c = lbrace
    · unfold charDepth at h
      rw [if_pos h1] at h
      exact absurd h (by decide)
    · unfold charDepth at h
      rw [if_neg h1, if_neg h2] at h
      exact absurd h (by decide)

theorem braceDepth_of_braceFree (cs : List Char) (h : braceFree cs) :
    braceDepth cs = 0 := by
  induction cs with
  | nil => rfl
  | cons c rest ih =>
    have hc := h c (List.mem_cons_self c rest)
    rw [braceDepth_cons, charDepth_of_free c hc.1 hc.2,
      ih (fun x hx => h x (List.mem_cons_of_mem c hx))]
    norm_num

theorem braceDepth_take_succ (cs : List Char) (k : Nat) (h : k < cs.length) :
    braceDepth (cs.take (k + 1)) =
      braceDepth (cs.take k) + charDepth (cs.getD k ' ') := by
  induction cs generalizing k with
  | nil => simp at h
  | cons c rest ih =>
    cases k with
    | zero => simp [braceDepth_cons, braceDepth_nil]
    | succ k2 =>
      have hk : k2 < rest.length := by simpa using h
      simp only [List.take_succ_cons, braceDepth_cons, ih k2 hk, List.getD_cons_succ]
      ring

/-- Single-character `find` over a decomposition: the first occurrence of `a`
sits right after the `a`-free front. -/
theorem strFindList_single_append (a : Char) (pre tl : List Char)
    (h : ∀ c ∈ pre, c ≠ a) :
    strFindList [a] (pre ++ a :: tl) = some pre.length := by
  induction pre with
  | nil => simp [strFindList, List.isPrefixOf]
  | cons c pre ih =>
    have hc : c ≠ a := h c (List.mem_cons_self c pre)
    have hnp : [a].isPrefixOf (c :: (pre ++ a :: tl)) = false := by
      simp [List.isPrefixOf]
      exact fun heq => hc heq.symm
    simp only [List.cons_append, strFindList, List.append_eq, hnp,
      Bool.false_eq_true, if_false,
      ih (fun x hx => h x (List.mem_cons_of_mem c hx)),
      Option.map_some', List.length_cons]

/-- The character at a single-character `find` result is that character. -/
theorem strFindList_single_head (a : Char) (cs : List Char) (i : Nat)
    (h : strFindList [a] cs = some i) : (cs.drop i).head? = some a := by
  induction cs generalizing i with
  | nil => simp [strFindList] at h
  | cons c rest ih =>
    by_cases hp : [a].isPrefixOf (c :: rest) = true
    · have ha : a = c := by simpa [List.isPrefixOf] using hp
      simp only [strFindList, if_pos hp] at h
      cases h
      simp [ha]
    · simp only [strFindList, if_neg hp] at h
      match hrec : strFindList [a] rest with
      | none => rw [hrec] at h; cases h
      | some i2 =>
        rw [hrec] at h
        simp only [Option.map_some'] at h
        cases h
        simpa using ih i2 hrec

/-- Single-character `rfind` over an occurrence-free list. -/
theorem strRfindList_single_none (a : Char) (cs : List Char)
    (h : ∀ c ∈ cs, c ≠ a) : strRfindList [a] cs = none := by
  induction cs with
  | nil => simp [strRfindList, List.isPrefixOf]
  | cons c rest ih =>
    have hc : c ≠ a := h c (List.mem_cons_self c rest)
    have hnp : [a].isPrefixOf (c :: rest) = false := by
      simp [List.isPrefixOf]
      exact fun heq => hc heq.symm
    simp only [strRfindList, ih (fun x hx => h x (List.mem_cons_of_mem c hx)),
      hnp, Bool.false_eq_true, if_false]

/-- Single-character `rfind` over a decomposition: the last occurrence of `a`
sits right after the front when nothing after it is `a`. -/
theorem strRfindList_single_last (a : Char) (front post : List Char)
    (h : ∀ c ∈ post, c ≠ a) :
    strRfindList [a] (front ++ a :: post) = some front.length := by
  induction front with
  | nil =>
    have hp : [a].isPrefixOf (a :: post) = true := by simp [List.isPrefixOf]
    simp [strRfindList, strRfindList_single_none a post h, hp]
  | cons c front ih =>
    simp only [List.cons_append, strRfindList, List.append_eq, ih, List.length_cons]

theorem charDepth_lbrace : charDepth lbrace = 1 := by simp [charDepth]

theorem charDepth_rbrace : charDepth rbrace = -1 := by
  have hne : rbrace ≠ lbrace := by decide
  simp [charDepth, hne]

theorem balanced_cons (obj : List Char) (h : BalancedObj obj) :
    ∃ body, obj = lbrace :: body := by
  cases obj with
  | nil => simp [BalancedObj] at h
  | cons c rest =>
    have hc : c = lbrace := by
      have := h.1
      simpa using this
    exact ⟨rest, by rw [hc]⟩

theorem balanced_two_le (obj : List Char) (h : BalancedObj obj) :
    2 ≤ obj.length := by
  obtain ⟨body, rfl⟩ := balanced_cons obj h
  cases body with
  | nil =>
    have h0 := h.2.1
    rw [braceDepth_cons, braceDepth_nil, charDepth_lbrace] at h0
    omega
  | cons d rest => simp [List.length_cons]

theorem balanced_concat (obj : List Char) (h : BalancedObj obj) :
    ∃ front, obj = front ++ [rbrace] ∧ front.length + 1 = obj.length := by
  rcases List.eq_nil_or_concat obj with hnil | ⟨front, c, heq⟩
  · subst hnil; simp [BalancedObj] at h
  · rw [List.concat_eq_append] at heq
    have hlen2 := balanced_two_le obj h
    have hlen : obj.length = front.length + 1 := by rw [heq]; simp
    have hfpos : 0 < front.length := by omega
    have htake : obj.take front.length = front := by
      rw [heq]; exact List.take_left front [c]
    have hpos : 0 < braceDepth front := by
      have := h.2.2 front.length (by omega) hfpos
      rwa [htake] at this
    have hdep : braceDepth front + charDepth c = 0 := by
      have h0 := h.2.1
      rw [heq, braceDepth_append, braceDepth_cons, braceDepth_nil] at h0
      omega
    have hc : c = rbrace := by
      apply charDepth_eq_neg_one
      have hge := charDepth_ge c
      omega
    exact ⟨front, by rw [heq, hc], by omega⟩

/-- The brace-count loop run on a span whose depth closes exactly at its end
(and stays positive before) consumes exactly that span, whatever follows. -/
theorem braceGo_bal (body : List Char) : ∀ (rest : List Char) (n : Int), 0 < n →
    n + braceDepth body = 0 →
    (∀ k, k < body.length → 0 < n + braceDepth (body.take k)) →
    braceGo (body ++ rest) n = some body.length := by
  induction body with
  | nil =>
    intro rest n hn h0 _
    rw [braceDepth_nil] at h0
    omega
  | cons c body ih =>
    intro rest n hn h0 hk
    by_cases hc1 : c = lbrace
    · have hstep : braceGo ((c :: body) ++ rest) n =
          (braceGo (body ++ rest) (n + 1)).map (· + 1) := by
        simp [braceGo, hc1]
      rw [braceDepth_cons, hc1, charDepth_lbrace] at h0
      have hrec := ih rest (n + 1) (by omega) (by omega) ?_
      · rw [hstep, hrec]
        simp
      · intro k hklen
        have := hk (k + 1) (by simpa using Nat.succ_lt_succ hklen)
        rw [List.take_succ_cons, braceDepth_cons, hc1, charDepth_lbrace] at this
        omega
    · by_cases hc2 : c = rbrace
      · by_cases hn1 : n = 1
        · have hbody : body = [] := by
            by_contra hne
            have hlen : 0 < body.length := List.length_pos.mpr hne
            have := hk 1 (by simpa using Nat.succ_lt_succ hlen)
            rw [show (c :: body).take 1 = [c] by rfl, braceDepth_cons,
              braceDepth_nil, hc2, charDepth_rbrace] at this
            omega
          subst hbody
          have hstep : braceGo ([c] ++ rest) n = some 1 := by
            simp [braceGo, hc2, show ¬ (rbrace = lbrace) from by decide, hn1]
          rw [hstep]
          rfl
        · have hn0 : ¬ (n - 1 = 0) := by omega
          have hstep : braceGo ((c :: body) ++ rest) n =
              (braceGo (body ++ rest) (n - 1)).map (· + 1) := by
            simp [braceGo, hc2, show ¬ (rbrace = lbrace) from by decide, hn0]
          rw [braceDepth_cons, hc2, charDepth_rbrace] at h0
          have hnbig : 1 < n := by
            rcases lt_or_eq_of_le (Int.add_one_le_iff.mpr hn) with h | h
            · omega
            · omega
          have hrec := ih rest (n - 1) (by omega) (by omega) ?_
          · rw [hstep, hrec]
            simp
          · intro k hklen
            have := hk (k + 1) (by simpa using Nat.succ_lt_succ hklen)
            rw [List.take_succ_cons, braceDepth_cons, hc2, charDepth_rbrace] at this
            omega
      · have hd0 : charDepth c = 0 := charDepth_of_free c hc1 hc2
        have hstep : braceGo ((c :: body) ++ rest) n =
            (braceGo (body ++ rest) n).map (· + 1) := by
          simp [braceGo, hc1, hc2]
        rw [braceDepth_cons, hd0] at h0
        have hrec := ih rest n hn (by omega) ?_
        · rw [hstep, hrec]
          simp
        · intro k hklen
          have := hk (k + 1) (by simpa using Nat.succ_lt_succ hklen)
          rw [List.take_succ_cons, braceDepth_cons, hd0] at this
          omega

/-- What a successful brace-count loop run implies when the count starts
positive: the consumed span closes the count exactly at its end and the count
stays positive strictly inside it. -/
theorem braceGo_some_min (cs : List Char) : ∀ (n : Int) (k : Nat), 0 < n →
    braceGo cs n = some k →
    0 < k ∧ k ≤ cs.length ∧ n + braceDepth (cs.take k) = 0 ∧
      ∀ i, 0 < i → i < k → 0 < n + braceDepth (cs.take i) := by
  induction cs with
  | nil =>
    intro n k hn h
    simp [braceGo] at h
  | cons c rest ih =>
    intro n k hn h
    by_cases hc1 : c = lbrace
    · rw [show braceGo (c :: rest) n = (braceGo rest (n + 1)).map (· + 1) by
        simp [braceGo, hc1]] at h
      rcases Option.map_eq_some'.mp h with ⟨k2, hk2, hkk⟩
      obtain ⟨hp1, hp2, hp3, hp4⟩ := ih (n + 1) k2 (by omega) hk2
      refine ⟨by omega, by simp; omega, ?_, ?_⟩
      · rw [← hkk, List.take_succ_cons, braceDepth_cons, hc1, charDepth_lbrace]
        omega
      · intro i hi0 hik
        cases i with
        | zero => omega
        | succ i2 =>
          rw [List.take_succ_cons, braceDepth_cons, hc1, charDepth_lbrace]
          cases Nat.eq_zero_or_pos i2 with
          | inl h0 => subst h0; rw [List.take_zero, braceDepth_nil]; omega
          | inr hpos =>
            have := hp4 i2 hpos (by omega)
            omega
    · by_cases hc2 : c = rbrace
      · by_cases hn1 : n = 1
        · rw [show braceGo (c :: rest) n = some 1 by
            simp [braceGo, hc2, show ¬ (rbrace = lbrace) from by decide, hn1]] at h
          cases h
          refine ⟨by omega, by simp, ?_, ?_⟩
          · rw [show (c :: rest).take 1 = [c] from rfl, braceDepth_cons,
              braceDepth_nil, hc2, charDepth_rbrace]
            omega
          · intro i hi0 hik
            omega
        · rw [show braceGo (c :: rest) n = (braceGo rest (n - 1)).map (· + 1) by
            simp [braceGo, hc2, show ¬ (rbrace = lbrace) from by decide,
              show ¬ (n - 1 = 0) by omega]] at h
          rcases Option.map_eq_some'.mp h with ⟨k2, hk2, hkk⟩
          obtain ⟨hp1, hp2, hp3, hp4⟩ := ih (n - 1) k2 (by omega) hk2
          refine ⟨by omega, by simp; omega, ?_, ?_⟩
          · rw [← hkk, List.take_succ_cons, braceDepth_cons, hc2, charDepth_rbrace]
            omega
          · intro i hi0 hik
            cases i with
            | zero => omega
            | succ i2 =>
              rw [List.take_succ_cons, braceDepth_cons, hc2, charDepth_rbrace]
              cases Nat.eq_zero_or_pos i2 with
              | inl h0 => subst h0; rw [List.take_zero, braceDepth_nil]; omega
              | inr hpos =>
                have := hp4 i2 hpos (by omega)
                omega
      · have hd0 : charDepth c = 0 := charDepth_of_free c hc1 hc2
        rw [show braceGo (c :: rest) n = (braceGo rest n).map (· + 1) by
          simp [braceGo, hc1, hc2]] at h
        rcases Option.map_eq_some'.mp h with ⟨k2, hk2, hkk⟩
        obtain ⟨hp1, hp2, hp3, hp4⟩ := ih n k2 hn hk2
        refine ⟨by omega, by simp; omega, ?_, ?_⟩
        · rw [← hkk, List.take_succ_cons, braceDepth_cons, hd0]
          omega
        · intro i hi0 hik
          cases i with
          | zero => omega
          | succ i2 =>
            rw [List.take_succ_cons, braceDepth_cons, hd0]
            cases Nat.eq_zero_or_pos i2 with
            | inl h0 => subst h0; rw [List.take_zero, braceDepth_nil]; omega
            | inr hpos =>
              have := hp4 i2 hpos (by omega)
              omega

/-- Between position one and the first return to zero, the depth of a text
that starts with an opening brace stays positive (depth moves in unit
steps, so it cannot become negative without first being zero). -/
theorem depth_pos_of_ne (cs : List Char) (j : Nat)
    (hhead : cs.head? = some lbrace)
    (hne : ∀ i, i < j → 0 < i → braceDepth (cs.take i) ≠ 0)
    (hj : j ≤ cs.length) :
    ∀ i, 0 < i → i < j → 0 < braceDepth (cs.take i) := by
  intro i
  induction i with
  | zero => intro h; omega
  | succ i2 ih =>
    intro _ hij
    cases Nat.eq_zero_or_pos i2 with
    | inl h0 =>
      subst h0
      cases cs with
      | nil => simp at hhead
      | cons c rest =>
        have hc : c = lbrace := by simpa using hhead
        rw [show (c :: rest).take 1 = [c] from rfl, braceDepth_cons,
          braceDepth_nil, hc, charDepth_lbrace]
        omega
    | inr hpos =>
      have hprev : 0 < braceDepth (cs.take i2) := ih hpos (by omega)
      have hstep := braceDepth_take_succ cs i2 (by omega)
      have hge := charDepth_ge (cs.getD i2 ' ')
      have hne2 := hne (i2 + 1) hij (by omega)
      omega

/-- The brace-count loop consumes exactly a balanced object span. -/
theorem braceGo_balancedObj (obj : List Char) (h : BalancedObj obj)
    (rest : List Char) : braceGo (obj ++ rest) 0 = some obj.length := by
  obtain ⟨body, rfl⟩ := balanced_cons obj h
  have hstep : braceGo ((lbrace :: body) ++ rest) 0 =
      (braceGo (body ++ rest) 1).map (· + 1) := by
    simp [braceGo]
  have h1 : (1 : Int) + braceDepth body = 0 := by
    have := h.2.1
    rw [braceDepth_cons, charDepth_lbrace] at this
    omega
  have h2 : ∀ k, k < body.length → 0 < 1 + braceDepth (body.take k) := by
    intro k hk
    cases Nat.eq_zero_or_pos k with
    | inl h0 => subst h0; rw [List.take_zero, braceDepth_nil]; omega
    | inr hpos =>
      have := h.2.2 (k + 1) (by simpa using Nat.succ_lt_succ hk) (by omega)
      rw [List.take_succ_cons, braceDepth_cons, charDepth_lbrace] at this
      omega
  rw [hstep, braceGo_bal body rest 1 (by norm_num) h1 h2]
  simp

/-- The brace-count loop consumes exactly up to the first return of the
depth to zero. -/
theorem braceGo_of_firstRet (cs : List Char) (j : Nat)
    (hhead : cs.head? = some lbrace) (h : FirstRet cs j) :
    braceGo cs 0 = some j := by
  obtain ⟨hj0, hjlen, hj, hmin⟩ := h
  cases cs with
  | nil => simp at hhead
  | cons c tl2 =>
    have hc : c = lbrace := by simpa using hhead
    subst hc
    have hj2 : 2 ≤ j := by
      rcases Nat.lt_or_ge j 2 with hlt | hge
      · have hj1 : j = 1 := by omega
        subst hj1
        rw [show (lbrace :: tl2).take 1 = [lbrace] from rfl, braceDepth_cons,
          braceDepth_nil, charDepth_lbrace] at hj
        omega
      · exact hge
    have hstep : braceGo (lbrace :: tl2) 0 = (braceGo tl2 1).map (· + 1) := by
      simp [braceGo]
    have hsplit : tl2.take (j - 1) ++ tl2.drop (j - 1) = tl2 :=
      List.take_append_drop (j - 1) tl2
    have hlen1 : j - 1 ≤ tl2.length := by
      simp only [List.length_cons] at hjlen
      omega
    have htklen : (tl2.take (j - 1)).length = j - 1 := by
      rw [List.length_take]
      omega
    have htake : (lbrace :: tl2).take j = lbrace :: tl2.take (j - 1) := by
      nth_rewrite 1 [show j = (j - 1) + 1 by omega]
      rw [List.take_succ_cons]
    have h1 : (1 : Int) + braceDepth (tl2.take (j - 1)) = 0 := by
      rw [htake, braceDepth_cons, charDepth_lbrace] at hj
      omega
    have hpos := depth_pos_of_ne (lbrace :: tl2) j hhead hmin hjlen
    have h2 : ∀ k, k < (tl2.take (j - 1)).length →
        0 < 1 + braceDepth ((tl2.take (j - 1)).take k) := by
      intro k hk
      rw [htklen] at hk
      rw [List.take_take, min_eq_left (by omega : k ≤ j - 1)]
      cases Nat.eq_zero_or_pos k with
      | inl h0 => subst h0; rw [List.take_zero, braceDepth_nil]; omega
      | inr hposk =>
        have := hpos (k + 1) (by omega) (by omega)
        rw [List.take_succ_cons, braceDepth_cons, charDepth_lbrace] at this
        omega
    have hgo : braceGo tl2 1 = some (j - 1) := by
      have := braceGo_bal (tl2.take (j - 1)) (tl2.drop (j - 1)) 1 (by norm_num) h1 h2
      rw [hsplit] at this
      rw [this, htklen]
    rw [hstep, hgo]
    simp
    omega

/-- A successful brace-count loop run from a leading opening brace stops at
the first return of the depth to zero. -/
theorem firstRet_of_braceGo (cs : List Char) (k : Nat)
    (hhead : cs.head? = some lbrace) (h : braceGo cs 0 = some k) :
    FirstRet cs k := by
  cases cs with
  | nil => simp at hhead
  | cons c tl2 =>
    have hc : c = lbrace := by simpa using hhead
    subst hc
    rw [show braceGo (lbrace :: tl2) 0 = (braceGo tl2 1).map (· + 1) by
      simp [braceGo]] at h
    rcases Option.map_eq_some'.mp h with ⟨k2, hk2, hkk⟩
    obtain ⟨hp1, hp2, hp3, hp4⟩ := braceGo_some_min tl2 1 k2 (by norm_num) hk2
    subst hkk
    refine ⟨by omega, by simp; omega, ?_, ?_⟩
    · rw [List.take_succ_cons, braceDepth_cons, charDepth_lbrace]
      omega
    · intro i hik hi0
      cases i with
      | zero => omega
      | succ i2 =>
        rw [List.take_succ_cons, braceDepth_cons, charDepth_lbrace]
        cases Nat.eq_zero_or_pos i2 with
        | inl h0 => subst h0; rw [List.take_zero, braceDepth_nil]; omega
        | inr hpos =>
          have := hp4 i2 hpos (by omega)
          omega

theorem string_mk_toList (s : String) : String.mk s.toList = s := by
  cases s
  rfl

/-- The Text Scanner on a text whose stripped form is brace-free prose around
one balanced object span returns exactly that span, whichever branch fires. -/
theorem extract_core_decomp (text : String) (pre obj post : List Char)
    (hdec : (pyStrip text).toList = pre ++ obj ++ post)
    (hpre : braceFree pre) (hpost : braceFree post) (hbal : BalancedObj obj) :
    extract_json_block_codex text = some (String.mk obj) := by
  obtain ⟨body, hobj⟩ := balanced_cons obj hbal
  obtain ⟨front, hobjf, hflen⟩ := balanced_concat obj hbal
  have hlen2 := balanced_two_le obj hbal
  have hfind : strFindList [lbrace] (pyStrip text).toList = some pre.length := by
    rw [hdec, hobj,
      show pre ++ (lbrace :: body) ++ post = pre ++ lbrace :: (body ++ post) by simp]
    exact strFindList_single_append lbrace pre (body ++ post) (fun c hc => (hpre c hc).1)
  have hrfind : strRfindList [rbrace] (pyStrip text).toList =
      some (pre.length + front.length) := by
    rw [hdec, hobjf,
      show pre ++ (front ++ [rbrace]) ++ post = (pre ++ front) ++ rbrace :: post by simp]
    rw [strRfindList_single_last rbrace (pre ++ front) post (fun c hc => (hpost c hc).2)]
    simp
  have htail : (pyStrip text).toList.drop pre.length = obj ++ post := by
    rw [hdec, List.append_assoc, List.drop_left]
  have hfence : fenceSpan (pyStrip text) = some (String.mk obj) := by
    simp only [fenceSpan, hfind, hrfind]
    rw [if_pos (by omega : pre.length < pre.length + front.length)]
    rw [htail, show pre.length + front.length + 1 - pre.length = obj.length by omega]
    rw [List.take_left]
  unfold extract_json_block_codex extract_json_block_core
  by_cases hf1 : containsSub (pyStrip text) "```json" = true
  · simp only [hf1, if_true, hfence]
  · simp only [Bool.not_eq_true] at hf1
    by_cases hf2 : containsSub (pyStrip text) "```" = true
    · simp only [hf1, Bool.false_eq_true, if_false, hf2, if_true, hfence]
    · simp only [Bool.not_eq_true] at hf2
      simp only [hf1, hf2, Bool.false_eq_true, if_false]
      by_cases hse : (pyStartsWith (pyStrip text) (String.mk [lbrace]) &&
          pyEndsWith (pyStrip text) (String.mk [rbrace])) = true
      · have hboth : pyStartsWith (pyStrip text) (String.mk [lbrace]) = true ∧
            pyEndsWith (pyStrip text) (String.mk [rbrace]) = true := by
          simpa using hse
        have hsw := hboth.1
        have hew := hboth.2
        have hpre0 : pre = [] := by
          cases hpc : pre with
          | nil => rfl
          | cons p pre2 =>
            exfalso
            unfold pyStartsWith at hsw
            rw [hdec, hpc, show (String.mk [lbrace]).toList = [lbrace] from rfl] at hsw
            simp [List.isPrefixOf] at hsw
            exact (hpre p (by rw [hpc]; exact List.mem_cons_self p pre2)).1 hsw.symm
        have hpost0 : post = [] := by
          rcases List.eq_nil_or_concat post with rfl | ⟨post1, q, hq⟩
          · rfl
          · exfalso
            rw [List.concat_eq_append] at hq
            unfold pyEndsWith at hew
            rw [hdec, hq, show (String.mk [rbrace]).toList = [rbrace] from rfl,
              show pre ++ obj ++ (post1 ++ [q]) = (pre ++ obj ++ post1) ++ [q] by simp,
              List.reverse_append] at hew
            simp only [List.reverse_singleton, List.singleton_append] at hew
            simp [List.isPrefixOf] at hew
            refine (hpost q ?_).2 hew.symm
            rw [hq]
            exact List.mem_append.mpr (Or.inr (by simp))
        subst hpre0
        subst hpost0
        rw [if_pos hse]
        have hlist : (pyStrip text).toList = obj := by simpa using hdec
        rw [show pyStrip text = String.mk obj by
          rw [← hlist, string_mk_toList]]
      · rw [if_neg hse]
        unfold braceScan
        simp only [hfind]
        rw [htail, braceGo_balancedObj obj hbal post]
        simp only [Option.map_some']
        rw [List.take_left]

/-- The brace-counting fallback returns the span up to the first return of
the depth to zero after the first opening brace. -/
theorem braceScan_firstRet (text : String) (i j : Nat)
    (hfind : strFindList [lbrace] text.toList = some i)
    (hfr : FirstRet (text.toList.drop i) j) :
    braceScan text = some (String.mk ((text.toList.drop i).take j)) := by
  have hhead := strFindList_single_head lbrace text.toList i hfind
  unfold braceScan
  simp only [hfind]
  rw [braceGo_of_firstRet (text.toList.drop i) j hhead hfr]
  rfl

/-- When the depth never returns to zero after the first opening brace, the
brace-counting fallback reports absence. -/
theorem braceScan_noRet (text : String) (i : Nat)
    (hfind : strFindList [lbrace] text.toList = some i)
    (hnone : ∀ j, ¬ FirstRet (text.toList.drop i) j) :
    braceScan text = none := by
  have hhead := strFindList_single_head lbrace text.toList i hfind
  unfold braceScan
  simp only [hfind]
  cases hgo : braceGo (text.toList.drop i) 0 with
  | none => rfl
  | some k =>
    exact absurd (firstRet_of_braceGo (text.toList.drop i) k hhead hgo) (hnone k)

/-- C5 (amended): for any text whose stripped form is brace-free prose around
a single balanced object span, the codex/opencode Text Scanner returns
exactly that span regardless of surrounding prose or fence markers (first
conjunct); the claude variant behaves identically whenever the text does not
contain the un-escape trigger sequences backslash-n or backslash-quote
(second conjunct) — the counterexample shows it can raise otherwise. When no
fence marker is present and the text does not both start and end with a
brace, the scanner is the brace-counting fallback (third conjunct), which
returns the span from the first opening brace to the position where the
brace depth first returns to zero, and absence when the depth never returns
to zero or no opening brace exists (last two conjuncts). -/
theorem claim_C5_text_scanner :
    (∀ (text : String) (pre obj post : List Char),
        (pyStrip text).toList = pre ++ obj ++ post →
        braceFree pre → braceFree post → BalancedObj obj →
        extract_json_block_codex text = some (String.mk obj)) ∧
    (∀ text : String,
        containsSub (pyStrip text) "\\n" = false →
        containsSub (pyStrip text) "\\\"" = false →
        extract_json_block_claude text = .ok (extract_json_block_codex text)) ∧
    (∀ text : String,
        containsSub (pyStrip text) "```json" = false →
        containsSub (pyStrip text) "```" = false →
        (pyStartsWith (pyStrip text) (String.mk [lbrace]) &&
            pyEndsWith (pyStrip text) (String.mk [rbrace])) = false →
        extract_json_block_codex text = braceScan (pyStrip text)) ∧
    (∀ (text : String) (i : Nat),
        strFindList [lbrace] text.toList = some i →
        (∀ j, FirstRet (text.toList.drop i) j →
            braceScan text = some (String.mk ((text.toList.drop i).take j))) ∧
        ((∀ j, ¬ FirstRet (text.toList.drop i) j) → braceScan text = none)) ∧
    (∀ text : String, strFindList [lbrace] text.toList = none →
        braceScan text = none) := by
  refine ⟨extract_core_decomp, ?_, ?_, ?_, ?_⟩
  · intro text h1 h2
    unfold extract_json_block_claude extract_json_block_codex
    simp [h1, h2]
  · intro text hf1 hf2 hse
    unfold extract_json_block_codex extract_json_block_core
    simp only [hf1, hf2, Bool.false_eq_true, if_false, hse]
  · intro text i hfind
    exact ⟨fun j hfr => braceScan_firstRet text i j hfind hfr,
      fun hnone => braceScan_noRet text i hfind hnone⟩
  · intro text h
    unfold braceScan
    rw [h]

/-- C5 counterexample: the text is exactly one balanced object span (so the
claim's precondition holds with empty prose on both sides), the codex
variant returns it, but the claude variant of `extract_json_block` raises
`AttributeError` instead of returning the span: the text contains a
backslash-n, decodes as a whole to a JSON dict, and the scanning steps then
run on a non-string. -/
theorem claim_C5_counterexample :
    pyStrip "\x7b\"a\": \"b\\nc\"\x7d" = "\x7b\"a\": \"b\\nc\"\x7d" ∧
    BalancedObj ("\x7b\"a\": \"b\\nc\"\x7d").toList ∧
    extract_json_block_codex "\x7b\"a\": \"b\\nc\"\x7d" =
      some "\x7b\"a\": \"b\\nc\"\x7d" ∧
    extract_json_block_claude "\x7b\"a\": \"b\\nc\"\x7d" = .error .attributeError := by
  exact ⟨rfl, by decide, rfl, rfl⟩

/-- C5 witness: the decomposition conjunct applied to prose around a span
with a fence marker, and the brace-fallback conjunct applied to a concrete
text with prose after the span. -/
theorem claim_C5_witness :
    extract_json_block_codex "see ```\n\x7b\"a\": \x7b\x7d\x7d\n``` end" =
      some "\x7b\"a\": \x7b\x7d\x7d" ∧
    extract_json_block_claude "say \x7b\"ok\": 1\x7d" =
      .ok (extract_json_block_codex "say \x7b\"ok\": 1\x7d") ∧
    braceScan "say \x7b\"ok\": 1\x7d now" = some "\x7b\"ok\": 1\x7d" := by
  refine ⟨?_, ?_, ?_⟩
  · exact claim_C5_text_scanner.1 "see ```\n\x7b\"a\": \x7b\x7d\x7d\n``` end"
      ("see ```\n".toList) ("\x7b\"a\": \x7b\x7d\x7d".toList) ("\n``` end".toList)
      (by decide) (by decide) (by decide) (by decide)
  · exact claim_C5_text_scanner.2.1 "say \x7b\"ok\": 1\x7d" (by decide) (by decide)
  · exact (claim_C5_text_scanner.2.2.2.1 "say \x7b\"ok\": 1\x7d now" 4 (by decide)).1
      9 (by decide)
